import Mathlib

/-!
Shallow embedding of `src/quick_html.py`, a context-manager based HTML
builder.  Python's mutable objects are modelled by explicit state
passing: `QuickHtml` carries the document fields of the Python class
(`_indent`, `_lines`, `_previous`, `_depth`, `_cls_cache`, `_html`)
together with a heap `elems` of `Elem` records addressed by index,
because Python `Element` instances are mutable and aliased (the
document's `_previous` field points at an element object).  Python
string primitives used by the source (`str.join`, `str.replace`,
`' ' * n`, slicing) are modelled by executable Lean functions below.
-/

/-- Model of the Python expression `' ' * n`: a string of `n` spaces. -/
def spaces (n : Nat) : String :=
  String.mk (List.replicate n ' ')

/-- Model of Python `sep.join(parts)`. -/
def pyJoin (sep : String) : List String → String
  | [] => ""
  | a :: rest => List.foldl (fun acc s => acc ++ sep ++ s) a rest

/-- Helper for `pySplit`: scan the character list left to right, cutting at
every leftmost non-overlapping occurrence of `sep`; `acc` holds the current
chunk reversed.  The fuel only bounds the recursion (each step consumes at
least one character, so fuel = length of the list is always enough; the
fuel-exhausted case is unreachable from `pySplit`). -/
def pySplitF (sep : List Char) : Nat → List Char → List Char → List (List Char)
  | _, [], acc => [acc.reverse]
  | 0, s, acc => [acc.reverse ++ s]
  | Nat.succ fuel, c :: rest, acc =>
    if sep.isPrefixOf (c :: rest) then
      acc.reverse :: pySplitF sep fuel ((c :: rest).drop sep.length) []
    else
      pySplitF sep fuel rest (c :: acc)

/-- Model of Python `s.split(sep)` for a non-empty separator. -/
def pySplit (s sep : String) : List String :=
  List.map String.mk (pySplitF sep.data s.data.length s.data [])

/-- Model of Python `s.replace(old, new)` for a non-empty `old`, via the
identity `s.replace(old, new) = new.join(s.split(old))`. -/
def pyReplace (s old new : String) : String :=
  pyJoin new (pySplit s old)

/-- Model of Python `repr(v)` for a string value `v` that contains no quote,
backslash or control character (the only values the repository uses):
the value surrounded by single quotes. -/
def pyRepr (v : String) : String :=
  "'" ++ v ++ "'"

/-- Model of the Python expression `l[:-2] + l[-1]` used by
`Element.__enter__` to turn a trailing `/>` into `>` (for a string of
length at least 1; Python raises on the empty string, which the builder
never produces there). -/
def swapSelfClose (s : String) : String :=
  String.mk (s.data.take (s.data.length - 2) ++ s.data.drop (s.data.length - 1))

/-- Direct translation of `reserved` from `quick_html.py`. -/
def reserved (word : String) : String :=
  if word = "class_" then "class" else word

/-- Replace the last element of the list by `f` of it, as Python's
`lines[-1] = f(lines[-1])` (which raises on an empty list; the builder
only reaches it after having appended a line). -/
def modifyLast (f : String → String) : List String → List String
  | [] => []
  | [x] => [f x]
  | x :: y :: xs => x :: modifyLast f (y :: xs)

/-- In-place update of the heap cell at index `i`, as Python's attribute
assignment on the aliased element object (out of range: no cell, no
change; unreachable for the indices the model passes). -/
def modifyIdx {α : Type} (f : α → α) : Nat → List α → List α
  | _, [] => []
  | 0, a :: l => f a :: l
  | Nat.succ n, a :: l => a :: modifyIdx f n l

/-- One Python `Element` instance: its `__class__.__name__` (the tag), and
the per-instance slots `indent`, `is_context_manager` and `text` of the
source.  The `parent` slot is implicit: every element of a heap belongs
to the `QuickHtml` state holding that heap. -/
structure Elem where
  tag : String
  indent : String
  is_context_manager : Bool
  text : List String
deriving DecidableEq

instance : Inhabited Elem := ⟨⟨"", "", false, []⟩⟩

/-- The `QuickHtml` document state, plus the heap `elems` of element
instances created so far (Python allocates them on the Python heap;
`_previous` stores an index into `elems` instead of an object
reference).  `_cls_cache` maps each tag name to the identity of the
dynamically created class, modelled as a number drawn from
`_cls_counter` so that distinct `type(...)` calls yield distinct
identities, as distinct Python class objects do. -/
structure QuickHtml where
  _indent : Nat
  _lines : List String
  _previous : Option Nat
  _depth : Int
  _cls_cache : List (String × Nat)
  _cls_counter : Nat
  _html : Option String
  elems : List Elem
deriving DecidableEq

/-- Model of `QuickHtml.__init__(indent)`. -/
def QuickHtml.init (indent : Nat) : QuickHtml :=
  ⟨indent, [], none, 0, [], 0, none, []⟩

instance : Inhabited QuickHtml := ⟨QuickHtml.init 2⟩

/-- Model of `QuickHtml.__getattr__(attr)`: return the cached class for
`attr`, or create, cache and return a fresh one.  The returned number is
the class's identity. -/
def QuickHtml.getattr (st : QuickHtml) (attr : String) : QuickHtml × Nat :=
  match st._cls_cache.lookup attr with
  | some kid => (st, kid)
  | none =>
    ({ st with _cls_cache := st._cls_cache ++ [(attr, st._cls_counter)],
               _cls_counter := st._cls_counter + 1 }, st._cls_counter)

/-- Model of `Element.__init__(**kwargs)` for the class named `tag` bound to
the document `st`: compute the creation-time indent from the current
depth, allocate the instance, set `_previous`, and append the self-closed
placeholder line.  Attribute values are the string values the repository
uses, rendered with `pyRepr`.  Returns the new state and the index of the
new instance. -/
def Element.init (st : QuickHtml) (tag : String) (kwargs : List (String × String)) : QuickHtml × Nat :=
  let ind := spaces (st._indent * st._depth.toNat)
  let eid := st.elems.length
  let line :=
    if kwargs ≠ [] then
      ind ++ "<" ++ tag ++ " " ++
        pyJoin " " (List.map (fun kv => reserved kv.1 ++ "=" ++ pyRepr kv.2) kwargs) ++ "/>"
    else
      ind ++ "<" ++ tag ++ "/>"
  ({ st with elems := st.elems ++ [⟨tag, ind, false, []⟩],
             _previous := some eid,
             _lines := st._lines ++ [line] }, eid)

/-- Model of `Element.__enter__` on the instance at `eid`: mark it a context
manager, rewrite the last buffered line (swap the trailing self-close),
and increment the depth. -/
def Element.enter (st : QuickHtml) (eid : Nat) : QuickHtml :=
  { st with elems := modifyIdx (fun e => { e with is_context_manager := true }) eid st.elems,
            _lines := modifyLast swapSelfClose st._lines,
            _depth := st._depth + 1 }

mutual

/-- Model of `Element.__call__(text)` on the instance at `eid`: append the
text to the instance's buffer; if the instance is not a context manager,
force an immediate `__enter__`/`__exit__` pair.  The fuel only bounds the
mutual recursion (see `Element.call`). -/
def Element.callF : Nat → QuickHtml → Nat → String → QuickHtml
  | 0, st, _, _ => st
  | Nat.succ fuel, st, eid, text =>
    let st1 : QuickHtml :=
      { st with elems := modifyIdx (fun e => { e with text := e.text ++ [text] }) eid st.elems }
    if (st1.elems.getD eid default).is_context_manager then st1
    else Element.exitF fuel (Element.enter st1 eid) eid

/-- Model of `Element.__exit__` on the instance at `eid`: flush the buffered
text (joined with the line-break marker; more than one fragment goes
through a synthesized `self.parent.p()` context manager, a single
fragment is written at the current indent with the markers expanded),
then decrement the depth and append the closing tag with the
creation-time indent.  The fuel only bounds the mutual recursion (see
`Element.exit`). -/
def Element.exitF : Nat → QuickHtml → Nat → QuickHtml
  | 0, st, _ => st
  | Nat.succ fuel, st, eid =>
    let e := st.elems.getD eid default
    let st1 : QuickHtml :=
      if e.text ≠ [] then
        let text := pyJoin "<br/>" e.text
        if 1 < e.text.length then
          let stp := (QuickHtml.getattr st "p").1
          let r := Element.init stp "p" []
          let st2 := Element.enter r.1 r.2
          let st3 := Element.callF fuel st2 r.2 text
          Element.exitF fuel st3 r.2
        else
          let ind := spaces (st._indent * st._depth.toNat)
          { st with _lines := st._lines ++ [ind ++ pyReplace text "<br/>" ("\n" ++ ind ++ "<br/>\n" ++ ind)] }
      else st
    { st1 with _depth := st1._depth - 1,
               _lines := st1._lines ++ [e.indent ++ "</" ++ e.tag ++ ">"] }

end

/-- Model of `Element.__exit__`.  Fuel 2 realizes the full Python semantics:
the only recursion is the synthesized `p` element, whose buffer always
holds exactly one fragment (the joined text), so its own exit never
recurses (`exitF_fuel_irrelevant` below proves additional fuel changes
nothing). -/
def Element.exit (st : QuickHtml) (eid : Nat) : QuickHtml :=
  Element.exitF 2 st eid

/-- Model of `Element.__call__`.  Fuel 3 realizes the full Python semantics
for the same reason as in `Element.exit`. -/
def Element.call (st : QuickHtml) (eid : Nat) (text : String) : QuickHtml :=
  Element.callF 3 st eid text

/-- Model of `QuickHtml.__enter__`: returns `self` unchanged. -/
def QuickHtml.enterDoc (st : QuickHtml) : QuickHtml :=
  st

/-- Model of `QuickHtml.__exit__`: cache the joined lines in `_html`. -/
def QuickHtml.exitDoc (st : QuickHtml) : QuickHtml :=
  { st with _html := some (pyJoin "\n" st._lines) }

/-- Model of `QuickHtml.__call__(text)`: append `text` to the text buffer of
the element `_previous` points at; `none` models the `AttributeError`
raised when `_previous` is `None`. -/
def QuickHtml.callDoc (st : QuickHtml) (text : String) : Option QuickHtml :=
  match st._previous with
  | none => none
  | some pid =>
    some { st with elems := modifyIdx (fun e => { e with text := e.text ++ [text] }) pid st.elems }

/-- Model of `QuickHtml.__str__`: `none` models the `RuntimeError` raised
while `_html` is still `None`; otherwise the cached html. -/
def QuickHtml.str? (st : QuickHtml) : Option String :=
  st._html

/-- Creating an element instance as callers do it: `web.tag(**kwargs)` is
`__getattr__` (class lookup, possibly caching a new class) followed by
instantiation, i.e. `Element.init`. -/
def QuickHtml.element (st : QuickHtml) (tag : String) (kwargs : List (String × String)) : QuickHtml × Nat :=
  Element.init (QuickHtml.getattr st tag).1 tag kwargs

/-- One caller-visible builder operation, for stating properties that
quantify over arbitrary interleavings of the API. -/
inductive Op where
  | create (tag : String) (kwargs : List (String × String))
  | enter (eid : Nat)
  | exit (eid : Nat)
  | call (eid : Nat) (text : String)
  | docCall (text : String)
  | docEnter
  | docExit
  | getDyn (tag : String)
deriving DecidableEq

/-- Whether an operation is an element creation. -/
def Op.isCreate : Op → Bool
  | .create _ _ => true
  | _ => false

/-- Apply one operation to the document state.  `docCall` on a document
with no element yet raises in Python; the state is left unchanged here
(the run would abort there). -/
def applyOp (st : QuickHtml) : Op → QuickHtml
  | .create tag kwargs => (QuickHtml.element st tag kwargs).1
  | .enter eid => Element.enter st eid
  | .exit eid => Element.exit st eid
  | .call eid text => Element.call st eid text
  | .docCall text => (QuickHtml.callDoc st text).getD st
  | .docEnter => QuickHtml.enterDoc st
  | .docExit => QuickHtml.exitDoc st
  | .getDyn tag => (QuickHtml.getattr st tag).1

/-- Run a sequence of operations left to right. -/
def run (st : QuickHtml) : List Op → QuickHtml
  | [] => st
  | op :: ops => run (applyOp st op) ops

/-- The heap `es2` extends `es`: every already-allocated instance keeps its
creation-time `tag` and `indent` (only the text buffer and the
context-manager flag of a cell ever change), and instances are never
deallocated. -/
def ElemsMetaExt (es es2 : List Elem) : Prop :=
  es.length ≤ es2.length ∧
    ∀ i, i < es.length →
      (es2.getD i default).tag = (es.getD i default).tag ∧
        (es2.getD i default).indent = (es.getD i default).indent

/-- A world of several independent documents, for frame properties: Python
lets callers hold any number of `QuickHtml` objects at once. -/
structure World where
  docs : List QuickHtml
deriving DecidableEq

/-- A dynamically created element class: the document it is bound to, the
identity of the class object, and the tag name. -/
structure Kind where
  doc : Nat
  cls : Nat
  tag : String
deriving DecidableEq

/-- Model of `web.tagname` on document `i` of the world: run `__getattr__`
there and hand back the resulting kind. -/
def World.getKind (w : World) (i : Nat) (attr : String) : World × Kind :=
  (⟨modifyIdx (fun st => (QuickHtml.getattr st attr).1) i w.docs⟩,
    ⟨i, ((w.docs.getD i default).getattr attr).2, attr⟩)

/-- Model of instantiating a kind: `Element.__init__` runs against the
document the kind is bound to.  Returns the new world and the instance as
a (document, heap index) reference. -/
def World.create (w : World) (k : Kind) (kwargs : List (String × String)) : World × (Nat × Nat) :=
  (⟨modifyIdx (fun st => (Element.init st k.tag kwargs).1) k.doc w.docs⟩,
    (k.doc, (Element.init (w.docs.getD k.doc default) k.tag kwargs).2))

/-- Model of entering an instance's scope in its own document. -/
def World.enter (w : World) (ref : Nat × Nat) : World :=
  ⟨modifyIdx (fun st => Element.enter st ref.2) ref.1 w.docs⟩

/-- Model of exiting an instance's scope in its own document. -/
def World.exit (w : World) (ref : Nat × Nat) : World :=
  ⟨modifyIdx (fun st => Element.exit st ref.2) ref.1 w.docs⟩

/-- Model of text-calling an instance in its own document. -/
def World.call (w : World) (ref : Nat × Nat) (t : String) : World :=
  ⟨modifyIdx (fun st => Element.call st ref.2 t) ref.1 w.docs⟩

/-! Basic lemmas about the list and string helpers. -/

theorem modifyLast_concat (f : String → String) (xs : List String) (x : String) :
    modifyLast f (xs ++ [x]) = xs ++ [f x] := by
  induction xs with
  | nil => rfl
  | cons a as ih =>
    cases as with
    | nil => rfl
    | cons b bs =>
      exact congrArg (List.cons a) ih

theorem modifyIdx_concat {α : Type} (f : α → α) (xs : List α) (y : α) :
    modifyIdx f xs.length (xs ++ [y]) = xs ++ [f y] := by
  induction xs with
  | nil => rfl
  | cons a as ih =>
    show a :: modifyIdx f as.length (as ++ [y]) = a :: (as ++ [f y])
    rw [ih]

theorem length_modifyIdx {α : Type} (f : α → α) (i : Nat) (l : List α) :
    (modifyIdx f i l).length = l.length := by
  induction l generalizing i with
  | nil => cases i <;> rfl
  | cons a as ih =>
    cases i with
    | zero => rfl
    | succ n => simp only [modifyIdx, List.length_cons, ih]

theorem getD_modifyIdx_ne {α : Type} (f : α → α) (i j : Nat) (l : List α) (d : α)
    (h : j ≠ i) : (modifyIdx f i l).getD j d = l.getD j d := by
  induction l generalizing i j with
  | nil => cases i <;> rfl
  | cons a as ih =>
    cases i with
    | zero =>
      cases j with
      | zero => exact absurd rfl h
      | succ m => rfl
    | succ n =>
      cases j with
      | zero => rfl
      | succ m =>
        simp only [modifyIdx, List.getD_cons_succ]
        exact ih n m (fun hc => h (by rw [hc]))

theorem getD_modifyIdx_self {α : Type} (f : α → α) (i : Nat) (l : List α) (d : α)
    (h : i < l.length) : (modifyIdx f i l).getD i d = f (l.getD i d) := by
  induction l generalizing i with
  | nil => exact absurd h (by simp)
  | cons a as ih =>
    cases i with
    | zero => rfl
    | succ n =>
      simp only [modifyIdx, List.getD_cons_succ]
      exact ih n (Nat.lt_of_succ_lt_succ h)

theorem getD_concat_length {α : Type} (xs : List α) (y : α) (d : α) :
    (xs ++ [y]).getD xs.length d = y := by
  induction xs with
  | nil => rfl
  | cons a as ih => exact ih

theorem pyJoin_singleton (sep a : String) : pyJoin sep [a] = a := rfl

theorem pyJoin_pair (sep a b : String) : pyJoin sep [a, b] = a ++ sep ++ b := rfl

theorem pyReplace_no_occurrence (s old new : String) (h : pySplit s old = [s]) :
    pyReplace s old new = s := by
  unfold pyReplace
  rw [h]
  rfl

theorem swap_data (l : List Char) (c1 c2 : Char) :
    (l ++ [c1, c2]).take ((l ++ [c1, c2]).length - 2) ++
      (l ++ [c1, c2]).drop ((l ++ [c1, c2]).length - 1) = l ++ [c2] := by
  have hlen : (l ++ [c1, c2]).length = l.length + 2 := by simp
  have htake : (l ++ [c1, c2]).take (l.length + 2 - 2) = l := by
    have h2 : l.length + 2 - 2 = l.length := by omega
    rw [h2]
    exact List.take_left l [c1, c2]
  have hdrop : (l ++ [c1, c2]).drop (l.length + 2 - 1) = [c2] := by
    have hsplit : l ++ [c1, c2] = (l ++ [c1]) ++ [c2] := by simp
    have h1 : l.length + 2 - 1 = (l ++ [c1]).length := by simp
    rw [h1, hsplit]
    exact List.drop_left (l ++ [c1]) [c2]
  rw [hlen, htake, hdrop]

theorem swapSelfClose_concat (s : String) : swapSelfClose (s ++ "/>") = s ++ ">" := by
  apply String.ext
  show ((s ++ "/>").data.take ((s ++ "/>").data.length - 2) ++
      (s ++ "/>").data.drop ((s ++ "/>").data.length - 1)) = (s ++ ">").data
  have h2 : ("/>" : String).data = ['/', '>'] := by decide
  have h3 : (">" : String).data = ['>'] := by decide
  have hdata : (s ++ "/>").data = s.data ++ ['/', '>'] := by
    rw [String.data_append, h2]
  have hres : (s ++ ">").data = s.data ++ ['>'] := by
    rw [String.data_append, h3]
  rw [hdata, hres]
  exact swap_data s.data '/' '>'

/-! Closed forms for `Element.exit`: one lemma per branch of the Python
`__exit__` (no buffered text, exactly one fragment, more than one
fragment).  Each is proved by unfolding the fueled definitions. -/

theorem exit_text_nil (st : QuickHtml) (eid : Nat)
    (h : (st.elems.getD eid default).text = []) :
    Element.exit st eid =
      { st with _depth := st._depth - 1,
                _lines := st._lines ++
                  [(st.elems.getD eid default).indent ++ "</" ++
                    (st.elems.getD eid default).tag ++ ">"] } := by
  unfold Element.exit
  simp only [Element.exitF, h]
  simp

theorem exitF_succ_single (fuel : Nat) (st : QuickHtml) (eid : Nat) (a : String)
    (h : (st.elems.getD eid default).text = [a]) :
    Element.exitF (Nat.succ fuel) st eid =
      { st with _depth := st._depth - 1,
                _lines := st._lines ++
                  [spaces (st._indent * st._depth.toNat) ++
                     pyReplace a "<br/>"
                       ("\n" ++ spaces (st._indent * st._depth.toNat) ++ "<br/>\n" ++
                         spaces (st._indent * st._depth.toNat)),
                   (st.elems.getD eid default).indent ++ "</" ++
                     (st.elems.getD eid default).tag ++ ">"] } := by
  simp only [Element.exitF, h]
  simp [pyJoin]

theorem getattr_fst_fields (st : QuickHtml) (a : String) :
    ((QuickHtml.getattr st a).1)._indent = st._indent ∧
    ((QuickHtml.getattr st a).1)._lines = st._lines ∧
    ((QuickHtml.getattr st a).1)._previous = st._previous ∧
    ((QuickHtml.getattr st a).1)._depth = st._depth ∧
    ((QuickHtml.getattr st a).1)._html = st._html ∧
    ((QuickHtml.getattr st a).1).elems = st.elems := by
  unfold QuickHtml.getattr
  cases st._cls_cache.lookup a <;> simp

theorem exit_text_multi (st : QuickHtml) (eid : Nat) (a b : String) (rest : List String)
    (h : (st.elems.getD eid default).text = a :: b :: rest) :
    Element.exit st eid =
      { (QuickHtml.getattr st "p").1 with
          elems := st.elems ++
            [⟨"p", spaces (st._indent * st._depth.toNat), true,
              [pyJoin "<br/>" (a :: b :: rest)]⟩],
          _previous := some st.elems.length,
          _depth := st._depth - 1,
          _lines := st._lines ++
            [spaces (st._indent * st._depth.toNat) ++ "<" ++ "p" ++ ">",
             spaces (st._indent * (st._depth + 1).toNat) ++
               pyReplace (pyJoin "<br/>" (a :: b :: rest)) "<br/>"
                 ("\n" ++ spaces (st._indent * (st._depth + 1).toNat) ++ "<br/>\n" ++
                   spaces (st._indent * (st._depth + 1).toNat)),
             spaces (st._indent * st._depth.toNat) ++ "</" ++ "p" ++ ">",
             (st.elems.getD eid default).indent ++ "</" ++
               (st.elems.getD eid default).tag ++ ">"] } := by
  have hf := getattr_fst_fields st "p"
  unfold Element.exit
  simp only [Element.exitF, Element.callF, Element.enter, Element.init, h,
    hf.1, hf.2.1, hf.2.2.1, hf.2.2.2.1, hf.2.2.2.2.1, hf.2.2.2.2.2,
    modifyIdx_concat, modifyLast_concat, getD_concat_length, swapSelfClose_concat]
  simp
  exact ⟨swapSelfClose_concat _, by rw [pyJoin_singleton]⟩

theorem exitF_succ_nil (fuel : Nat) (st : QuickHtml) (eid : Nat)
    (h : (st.elems.getD eid default).text = []) :
    Element.exitF (Nat.succ fuel) st eid =
      { st with _depth := st._depth - 1,
                _lines := st._lines ++
                  [(st.elems.getD eid default).indent ++ "</" ++
                    (st.elems.getD eid default).tag ++ ">"] } := by
  simp only [Element.exitF, h]
  simp

theorem exitF_succ2_multi (fuel : Nat) (st : QuickHtml) (eid : Nat) (a b : String) (rest : List String)
    (h : (st.elems.getD eid default).text = a :: b :: rest) :
    Element.exitF (Nat.succ (Nat.succ fuel)) st eid =
      { (QuickHtml.getattr st "p").1 with
          elems := st.elems ++
            [⟨"p", spaces (st._indent * st._depth.toNat), true,
              [pyJoin "<br/>" (a :: b :: rest)]⟩],
          _previous := some st.elems.length,
          _depth := st._depth - 1,
          _lines := st._lines ++
            [spaces (st._indent * st._depth.toNat) ++ "<" ++ "p" ++ ">",
             spaces (st._indent * (st._depth + 1).toNat) ++
               pyReplace (pyJoin "<br/>" (a :: b :: rest)) "<br/>"
                 ("\n" ++ spaces (st._indent * (st._depth + 1).toNat) ++ "<br/>\n" ++
                   spaces (st._indent * (st._depth + 1).toNat)),
             spaces (st._indent * st._depth.toNat) ++ "</" ++ "p" ++ ">",
             (st.elems.getD eid default).indent ++ "</" ++
               (st.elems.getD eid default).tag ++ ">"] } := by
  have hf := getattr_fst_fields st "p"
  simp only [Element.exitF, Element.callF, Element.enter, Element.init, h,
    hf.1, hf.2.1, hf.2.2.1, hf.2.2.2.1, hf.2.2.2.2.1, hf.2.2.2.2.2,
    modifyIdx_concat, modifyLast_concat, getD_concat_length, swapSelfClose_concat]
  simp
  exact ⟨swapSelfClose_concat _, by rw [pyJoin_singleton]⟩

theorem exitF_fuel_irrelevant (n : Nat) (st : QuickHtml) (eid : Nat) :
    Element.exitF (n + 2) st eid = Element.exit st eid := by
  rcases htext : (st.elems.getD eid default).text with _ | ⟨a, _ | ⟨b, rest⟩⟩
  · rw [show n + 2 = Nat.succ (n + 1) from rfl, exitF_succ_nil _ _ _ htext,
      exit_text_nil st eid htext]
  · rw [show n + 2 = Nat.succ (n + 1) from rfl, exitF_succ_single _ _ _ _ htext]
    rw [show Element.exit st eid = Element.exitF (Nat.succ 1) st eid from rfl,
      exitF_succ_single _ _ _ _ htext]
  · rw [show n + 2 = Nat.succ (Nat.succ n) from rfl, exitF_succ2_multi _ _ _ _ _ _ htext,
      exit_text_multi st eid a b rest htext]

theorem callF_fuel_irrelevant (n : Nat) (st : QuickHtml) (eid : Nat) (t : String) :
    Element.callF (n + 3) st eid t = Element.call st eid t := by
  unfold Element.call
  rw [show n + 3 = Nat.succ (n + 2) from rfl, show (3 : Nat) = Nat.succ 2 from rfl]
  simp only [Element.callF]
  split
  · rfl
  · exact exitF_fuel_irrelevant n _ eid

theorem call_eq (st : QuickHtml) (eid : Nat) (t : String) :
    Element.call st eid t =
      (let st1 : QuickHtml :=
        { st with elems := modifyIdx (fun e => { e with text := e.text ++ [t] }) eid st.elems }
       if (st1.elems.getD eid default).is_context_manager then st1
       else Element.exit (Element.enter st1 eid) eid) := rfl

theorem exit_text_single (st : QuickHtml) (eid : Nat) (a : String)
    (h : (st.elems.getD eid default).text = [a]) :
    Element.exit st eid =
      { st with _depth := st._depth - 1,
                _lines := st._lines ++
                  [spaces (st._indent * st._depth.toNat) ++
                     pyReplace a "<br/>"
                       ("\n" ++ spaces (st._indent * st._depth.toNat) ++ "<br/>\n" ++
                         spaces (st._indent * st._depth.toNat)),
                   (st.elems.getD eid default).indent ++ "</" ++
                     (st.elems.getD eid default).tag ++ ">"] } :=
  exitF_succ_single 1 st eid a h

/-! Derived facts about `Element.exit`, by cases over the flush branches. -/

theorem exit_depth (st : QuickHtml) (eid : Nat) :
    (Element.exit st eid)._depth = st._depth - 1 := by
  rcases htext : (st.elems.getD eid default).text with _ | ⟨a, _ | ⟨b, rest⟩⟩
  · rw [exit_text_nil st eid htext]
  · rw [exit_text_single st eid a htext]
  · rw [exit_text_multi st eid a b rest htext]

theorem exit_html (st : QuickHtml) (eid : Nat) :
    (Element.exit st eid)._html = st._html := by
  rcases htext : (st.elems.getD eid default).text with _ | ⟨a, _ | ⟨b, rest⟩⟩
  · rw [exit_text_nil st eid htext]
  · rw [exit_text_single st eid a htext]
  · rw [exit_text_multi st eid a b rest htext]
    exact (getattr_fst_fields st "p").2.2.2.2.1

theorem exit_indentW (st : QuickHtml) (eid : Nat) :
    (Element.exit st eid)._indent = st._indent := by
  rcases htext : (st.elems.getD eid default).text with _ | ⟨a, _ | ⟨b, rest⟩⟩
  · rw [exit_text_nil st eid htext]
  · rw [exit_text_single st eid a htext]
  · rw [exit_text_multi st eid a b rest htext]
    exact (getattr_fst_fields st "p").1

theorem exit_prev (st : QuickHtml) (eid : Nat) :
    (Element.exit st eid)._previous = st._previous ∨
      ∃ k, (Element.exit st eid)._previous = some k := by
  rcases htext : (st.elems.getD eid default).text with _ | ⟨a, _ | ⟨b, rest⟩⟩
  · rw [exit_text_nil st eid htext]; exact Or.inl rfl
  · rw [exit_text_single st eid a htext]; exact Or.inl rfl
  · rw [exit_text_multi st eid a b rest htext]; exact Or.inr ⟨st.elems.length, rfl⟩

theorem exit_elems_ext (st : QuickHtml) (eid : Nat) :
    ∃ tail, (Element.exit st eid).elems = st.elems ++ tail := by
  rcases htext : (st.elems.getD eid default).text with _ | ⟨a, _ | ⟨b, rest⟩⟩
  · rw [exit_text_nil st eid htext]; exact ⟨[], by simp⟩
  · rw [exit_text_single st eid a htext]; exact ⟨[], by simp⟩
  · rw [exit_text_multi st eid a b rest htext]
    exact ⟨[⟨"p", spaces (st._indent * st._depth.toNat), true,
      [pyJoin "<br/>" (a :: b :: rest)]⟩], rfl⟩

theorem exit_lines_ext (st : QuickHtml) (eid : Nat) :
    ∃ mid, (Element.exit st eid)._lines =
      st._lines ++ (mid ++ [(st.elems.getD eid default).indent ++ "</" ++
        (st.elems.getD eid default).tag ++ ">"]) := by
  rcases htext : (st.elems.getD eid default).text with _ | ⟨a, _ | ⟨b, rest⟩⟩
  · rw [exit_text_nil st eid htext]; exact ⟨[], by simp⟩
  · rw [exit_text_single st eid a htext]
    refine ⟨[spaces (st._indent * st._depth.toNat) ++
      pyReplace a "<br/>"
        ("\n" ++ spaces (st._indent * st._depth.toNat) ++ "<br/>\n" ++
          spaces (st._indent * st._depth.toNat))], by simp⟩
  · rw [exit_text_multi st eid a b rest htext]
    refine ⟨[spaces (st._indent * st._depth.toNat) ++ "<" ++ "p" ++ ">",
      spaces (st._indent * (st._depth + 1).toNat) ++
        pyReplace (pyJoin "<br/>" (a :: b :: rest)) "<br/>"
          ("\n" ++ spaces (st._indent * (st._depth + 1).toNat) ++ "<br/>\n" ++
            spaces (st._indent * (st._depth + 1).toNat)),
      spaces (st._indent * st._depth.toNat) ++ "</" ++ "p" ++ ">"], by simp⟩

/-! Heap-shape machinery: `ElemsMetaExt` facts and lifting to single calls. -/

theorem modifyIdx_nil {α : Type} (f : α → α) (i : Nat) : modifyIdx f i ([] : List α) = [] := by
  cases i <;> rfl

theorem meta_refl (es : List Elem) : ElemsMetaExt es es :=
  ⟨le_refl _, fun _ _ => ⟨rfl, rfl⟩⟩

theorem meta_trans {e1 e2 e3 : List Elem} (h1 : ElemsMetaExt e1 e2) (h2 : ElemsMetaExt e2 e3) :
    ElemsMetaExt e1 e3 := by
  refine ⟨le_trans h1.1 h2.1, fun i hi => ?_⟩
  have a := h1.2 i hi
  have b := h2.2 i (lt_of_lt_of_le hi h1.1)
  exact ⟨b.1.trans a.1, b.2.trans a.2⟩

theorem meta_concat (es tail : List Elem) : ElemsMetaExt es (es ++ tail) := by
  refine ⟨by simp, fun i hi => ?_⟩
  rw [List.getD_append es tail default i hi]
  exact ⟨rfl, rfl⟩

theorem meta_modify (f : Elem → Elem) (hf : ∀ e, (f e).tag = e.tag ∧ (f e).indent = e.indent)
    (i : Nat) (es : List Elem) : ElemsMetaExt es (modifyIdx f i es) := by
  refine ⟨by rw [length_modifyIdx], fun j hj => ?_⟩
  by_cases hji : j = i
  · subst hji
    rw [getD_modifyIdx_self f j es default hj]
    exact hf _
  · rw [getD_modifyIdx_ne f i j es default hji]
    exact ⟨rfl, rfl⟩

theorem exit_meta (st : QuickHtml) (eid : Nat) :
    ElemsMetaExt st.elems (Element.exit st eid).elems := by
  obtain ⟨tail, h⟩ := exit_elems_ext st eid
  rw [h]
  exact meta_concat _ _

theorem call_meta (st : QuickHtml) (eid : Nat) (t : String) :
    ElemsMetaExt st.elems (Element.call st eid t).elems := by
  rw [call_eq st eid t]
  dsimp only
  split
  · exact meta_modify (fun e => { e with text := e.text ++ [t] }) (fun e => ⟨rfl, rfl⟩) eid st.elems
  · have m1 : ElemsMetaExt st.elems
        (modifyIdx (fun e => { e with text := e.text ++ [t] }) eid st.elems) :=
      meta_modify (fun e => { e with text := e.text ++ [t] }) (fun e => ⟨rfl, rfl⟩) eid st.elems
    have m2 := meta_modify (fun e => { e with is_context_manager := true }) (fun e => ⟨rfl, rfl⟩)
      eid (modifyIdx (fun e => { e with text := e.text ++ [t] }) eid st.elems)
    have m3 := exit_meta
      (Element.enter
        { st with elems := modifyIdx (fun e => { e with text := e.text ++ [t] }) eid st.elems } eid)
      eid
    exact meta_trans (meta_trans m1 m2) m3

theorem call_html (st : QuickHtml) (eid : Nat) (t : String) :
    (Element.call st eid t)._html = st._html := by
  rw [call_eq st eid t]
  dsimp only
  split
  · rfl
  · rw [exit_html]
    rfl

theorem call_prev (st : QuickHtml) (eid : Nat) (t : String) :
    (Element.call st eid t)._previous = st._previous ∨
      ∃ k, (Element.call st eid t)._previous = some k := by
  rw [call_eq st eid t]
  dsimp only
  split
  · exact Or.inl rfl
  · rcases exit_prev (Element.enter
      { st with elems := modifyIdx (fun e => { e with text := e.text ++ [t] }) eid st.elems } eid)
      eid with h | ⟨k, hk⟩
    · exact Or.inl h
    · exact Or.inr ⟨k, hk⟩

/-! Per-operation and per-run facts for trace-quantified properties. -/

theorem element_fst (st : QuickHtml) (tag : String) (kwargs : List (String × String)) :
    (QuickHtml.element st tag kwargs).1 =
      { (QuickHtml.getattr st tag).1 with
          elems := st.elems ++ [⟨tag, spaces (st._indent * st._depth.toNat), false, []⟩],
          _previous := some st.elems.length,
          _lines := st._lines ++
            [if kwargs ≠ [] then
               spaces (st._indent * st._depth.toNat) ++ "<" ++ tag ++ " " ++
                 pyJoin " " (List.map (fun kv => reserved kv.1 ++ "=" ++ pyRepr kv.2) kwargs) ++ "/>"
             else spaces (st._indent * st._depth.toNat) ++ "<" ++ tag ++ "/>"] } ∧
    (QuickHtml.element st tag kwargs).2 = st.elems.length := by
  have hf := getattr_fst_fields st tag
  unfold QuickHtml.element Element.init
  refine ⟨?_, ?_⟩
  · simp only [hf.1, hf.2.1, hf.2.2.1, hf.2.2.2.1, hf.2.2.2.2.1, hf.2.2.2.2.2]
  · exact congrArg List.length hf.2.2.2.2.2

theorem applyOp_meta (st : QuickHtml) (op : Op) :
    ElemsMetaExt st.elems (applyOp st op).elems := by
  cases op with
  | create tag kwargs =>
    show ElemsMetaExt st.elems ((QuickHtml.element st tag kwargs).1).elems
    rw [(element_fst st tag kwargs).1]
    exact meta_concat _ _
  | enter eid =>
    exact meta_modify (fun e => { e with is_context_manager := true }) (fun e => ⟨rfl, rfl⟩)
      eid st.elems
  | exit eid => exact exit_meta st eid
  | call eid t => exact call_meta st eid t
  | docCall t =>
    show ElemsMetaExt st.elems ((QuickHtml.callDoc st t).getD st).elems
    unfold QuickHtml.callDoc
    cases hp : st._previous with
    | none => exact meta_refl _
    | some pid =>
      exact meta_modify (fun e => { e with text := e.text ++ [t] }) (fun e => ⟨rfl, rfl⟩)
        pid st.elems
  | docEnter => exact meta_refl _
  | docExit => exact meta_refl _
  | getDyn tag =>
    show ElemsMetaExt st.elems ((QuickHtml.getattr st tag).1).elems
    rw [(getattr_fst_fields st tag).2.2.2.2.2]
    exact meta_refl _

theorem run_elems_meta (ops : List Op) (st : QuickHtml) :
    ElemsMetaExt st.elems (run st ops).elems := by
  induction ops generalizing st with
  | nil => exact meta_refl _
  | cons op ops ih => exact meta_trans (applyOp_meta st op) (ih (applyOp st op))

theorem applyOp_html (st : QuickHtml) (op : Op) (h : op ≠ Op.docExit) :
    (applyOp st op)._html = st._html := by
  cases op with
  | create tag kwargs =>
    show ((QuickHtml.element st tag kwargs).1)._html = st._html
    rw [(element_fst st tag kwargs).1]
    exact (getattr_fst_fields st tag).2.2.2.2.1
  | enter eid => rfl
  | exit eid => exact exit_html st eid
  | call eid t => exact call_html st eid t
  | docCall t =>
    show ((QuickHtml.callDoc st t).getD st)._html = st._html
    unfold QuickHtml.callDoc
    cases hp : st._previous with
    | none => rfl
    | some pid => rfl
  | docEnter => rfl
  | docExit => exact absurd rfl h
  | getDyn tag => exact (getattr_fst_fields st tag).2.2.2.2.1

theorem run_html_none_iff (ops : List Op) (st : QuickHtml) :
    (run st ops)._html = none ↔ (st._html = none ∧ ∀ o ∈ ops, o ≠ Op.docExit) := by
  induction ops generalizing st with
  | nil => simp [run]
  | cons op ops ih =>
    show (run (applyOp st op) ops)._html = none ↔ _
    rw [ih (applyOp st op)]
    by_cases hop : op = Op.docExit
    · subst hop
      have : (applyOp st Op.docExit)._html = some (pyJoin "\n" st._lines) := rfl
      simp [this]
    · rw [applyOp_html st op hop]
      simp only [List.mem_cons]
      constructor
      · rintro ⟨h1, h2⟩
        exact ⟨h1, fun o ho => ho.elim (fun he => he ▸ hop) (h2 o)⟩
      · rintro ⟨h1, h2⟩
        exact ⟨h1, fun o ho => h2 o (Or.inr ho)⟩

theorem applyOp_prev (st : QuickHtml) (op : Op) :
    (applyOp st op)._previous = st._previous ∨
      ∃ k, (applyOp st op)._previous = some k := by
  cases op with
  | create tag kwargs =>
    refine Or.inr ⟨st.elems.length, ?_⟩
    show ((QuickHtml.element st tag kwargs).1)._previous = _
    rw [(element_fst st tag kwargs).1]
  | enter eid => exact Or.inl rfl
  | exit eid => exact exit_prev st eid
  | call eid t => exact call_prev st eid t
  | docCall t =>
    show ((QuickHtml.callDoc st t).getD st)._previous = st._previous ∨ _
    unfold QuickHtml.callDoc
    rcases hp : st._previous with _ | pid <;> simp [hp]
  | docEnter => exact Or.inl rfl
  | docExit => exact Or.inl rfl
  | getDyn tag => exact Or.inl (getattr_fst_fields st tag).2.2.1

theorem run_prev_stable (ops : List Op) (st : QuickHtml) (h : st._previous ≠ none) :
    (run st ops)._previous ≠ none := by
  induction ops generalizing st with
  | nil => exact h
  | cons op ops ih =>
    refine ih (applyOp st op) ?_
    rcases applyOp_prev st op with hp | ⟨k, hk⟩
    · rw [hp]; exact h
    · rw [hk]; exact Option.some_ne_none k

theorem applyOp_noCreate_empty (st : QuickHtml) (op : Op) (hop : op.isCreate = false)
    (h1 : st._previous = none) (h2 : st.elems = []) :
    (applyOp st op)._previous = none ∧ (applyOp st op).elems = [] := by
  cases op with
  | create tag kwargs => exact absurd hop (by simp [Op.isCreate])
  | enter eid =>
    show (Element.enter st eid)._previous = none ∧ (Element.enter st eid).elems = []
    unfold Element.enter
    simp [h1, h2, modifyIdx_nil]
  | exit eid =>
    have htext : (st.elems.getD eid default).text = [] := by
      rw [h2, List.getD_nil]
      rfl
    rw [show applyOp st (Op.exit eid) = Element.exit st eid from rfl,
      exit_text_nil st eid htext]
    exact ⟨h1, h2⟩
  | call eid t =>
    show (Element.call st eid t)._previous = none ∧ (Element.call st eid t).elems = []
    rw [call_eq st eid t]
    dsimp only
    rw [h2, modifyIdx_nil]
    have hcm : ((({ st with elems := ([] : List Elem) }) : QuickHtml).elems.getD eid
        default).is_context_manager = false := by
      rw [List.getD_nil]
      rfl
    rw [if_neg (by simp [hcm])]
    have htext2 : (((Element.enter { st with elems := ([] : List Elem) } eid)).elems.getD eid
        default).text = [] := by
      show ((modifyIdx (fun e => { e with is_context_manager := true }) eid
        ([] : List Elem)).getD eid default).text = []
      rw [modifyIdx_nil, List.getD_nil]
      rfl
    rw [exit_text_nil _ eid htext2]
    refine ⟨h1, ?_⟩
    show modifyIdx (fun e => { e with is_context_manager := true }) eid ([] : List Elem) = []
    exact modifyIdx_nil _ eid
  | docCall t =>
    show (((QuickHtml.callDoc st t).getD st))._previous = none ∧
      (((QuickHtml.callDoc st t).getD st)).elems = []
    unfold QuickHtml.callDoc
    rw [h1]
    exact ⟨h1, h2⟩
  | docEnter => exact ⟨h1, h2⟩
  | docExit => exact ⟨h1, h2⟩
  | getDyn tag =>
    have hf := getattr_fst_fields st tag
    exact ⟨hf.2.2.1.trans h1, hf.2.2.2.2.2.trans h2⟩

theorem run_prev_none_iff (ops : List Op) (st : QuickHtml)
    (h1 : st._previous = none) (h2 : st.elems = []) :
    ((run st ops)._previous = none ↔ ∀ o ∈ ops, o.isCreate = false) := by
  induction ops generalizing st with
  | nil => simp [run, h1]
  | cons op ops ih =>
    show ((run (applyOp st op) ops)._previous = none ↔ _)
    by_cases hc : op.isCreate = true
    · have hpr : (applyOp st op)._previous ≠ none := by
        cases op with
        | create tag kwargs =>
          rw [show (applyOp st (Op.create tag kwargs))._previous =
            some st.elems.length from by
              show ((QuickHtml.element st tag kwargs).1)._previous = _
              rw [(element_fst st tag kwargs).1]]
          simp
        | enter e => simp [Op.isCreate] at hc
        | exit e => simp [Op.isCreate] at hc
        | call e t => simp [Op.isCreate] at hc
        | docCall t => simp [Op.isCreate] at hc
        | docEnter => simp [Op.isCreate] at hc
        | docExit => simp [Op.isCreate] at hc
        | getDyn tag => simp [Op.isCreate] at hc
      have := run_prev_stable ops (applyOp st op) hpr
      simp only [List.mem_cons]
      constructor
      · intro hnone
        exact absurd hnone this
      · intro hall
        exact absurd (hall op (Or.inl rfl)) (by simp [hc])
    · have hfalse : op.isCreate = false := by
        cases hb : op.isCreate
        · rfl
        · exact absurd hb hc
      obtain ⟨p1, p2⟩ := applyOp_noCreate_empty st op hfalse h1 h2
      rw [ih (applyOp st op) p1 p2]
      simp only [List.mem_cons]
      constructor
      · intro hall o ho
        rcases ho with he | ho
        · rw [he]; exact hfalse
        · exact hall o ho
      · intro hall o ho
        exact hall o (Or.inr ho)

/-! Class-cache and multi-document lemmas. -/

theorem modifyIdx_ge {α : Type} (f : α → α) (i : Nat) (l : List α) (h : l.length ≤ i) :
    modifyIdx f i l = l := by
  induction l generalizing i with
  | nil => exact modifyIdx_nil f i
  | cons a as ih =>
    cases i with
    | zero => exact absurd h (by simp)
    | succ n =>
      show a :: modifyIdx f n as = a :: as
      rw [ih n (Nat.le_of_succ_le_succ h)]

theorem lookup_concat_self {β : Type} (a : String) (b : β) (l : List (String × β))
    (h : l.lookup a = none) : (l ++ [(a, b)]).lookup a = some b := by
  induction l with
  | nil => simp [List.lookup]
  | cons kv l ih =>
    rcases kv with ⟨k, v⟩
    by_cases hk : a = k
    · subst hk
      simp [List.lookup] at h
    · have hbeq : (a == k) = false := by simpa using hk
      simp only [List.lookup, List.cons_append, hbeq] at h ⊢
      exact ih h

theorem getattr_again (st : QuickHtml) (attr : String) :
    ((st.getattr attr).1.getattr attr).2 = (st.getattr attr).2 ∧
      ((st.getattr attr).1.getattr attr).1 = (st.getattr attr).1 := by
  unfold QuickHtml.getattr
  cases hc : st._cls_cache.lookup attr with
  | some kid => simp [hc]
  | none =>
    simp only [hc]
    have h2 : ((st._cls_cache ++ [(attr, st._cls_counter)]).lookup attr) =
        some st._cls_counter := lookup_concat_self attr st._cls_counter _ hc
    simp [h2]

theorem length_modifyLast (f : String → String) (l : List String) :
    (modifyLast f l).length = l.length := by
  induction l with
  | nil => rfl
  | cons a as ih =>
    cases as with
    | nil => rfl
    | cons b bs => exact congrArg Nat.succ ih

theorem getD_modifyLast_lt (f : String → String) (l : List String) (i : Nat) (d : String)
    (h : i + 1 < l.length) : (modifyLast f l).getD i d = l.getD i d := by
  induction l generalizing i with
  | nil => rfl
  | cons a as ih =>
    cases as with
    | nil => exact absurd h (by simp)
    | cons b bs =>
      cases i with
      | zero => rfl
      | succ n =>
        show (modifyLast f (b :: bs)).getD n d = (b :: bs).getD n d
        exact ih n (Nat.lt_of_succ_lt_succ h)

/-! The ten claims. -/

/-- C1: an instance that is created and then invoked with a text string,
without its scope ever being entered by the caller, starts with its
context-manager flag off, and the invocation synthesizes an immediate
enter/exit pair: the self-closed placeholder line is rewritten into an
open tag, the text is written on its own line indented one level deeper,
and a matching closing tag is appended at the creation-time indent; the
depth counter is back where it started.  (The text is assumed free of the
`<br/>` marker, as in the claim's example; a marker would be expanded over
several physical lines.) -/
theorem leaf_call_auto_closes (st : QuickHtml) (tag t : String)
    (hd : 0 ≤ st._depth) (ht : pySplit t "<br/>" = [t]) :
    (Element.call (QuickHtml.element st tag []).1 (QuickHtml.element st tag []).2 t)._lines
      = st._lines ++
        [spaces (st._indent * st._depth.toNat) ++ "<" ++ tag ++ ">",
         spaces (st._indent * (st._depth.toNat + 1)) ++ t,
         spaces (st._indent * st._depth.toNat) ++ "</" ++ tag ++ ">"] ∧
    (Element.call (QuickHtml.element st tag []).1 (QuickHtml.element st tag []).2 t)._depth
      = st._depth ∧
    ((QuickHtml.element st tag []).1.elems.getD (QuickHtml.element st tag []).2
        default).is_context_manager = false := by
  have hf := getattr_fst_fields st tag
  have h1 : (st._depth + 1).toNat = st._depth.toNat + 1 := by omega
  have hrep : ∀ nw, pyReplace t "<br/>" nw = t := fun nw => pyReplace_no_occurrence t "<br/>" nw ht
  unfold Element.call QuickHtml.element
  simp only [Element.callF, Element.exitF, Element.enter, Element.init,
    hf.1, hf.2.1, hf.2.2.1, hf.2.2.2.1, hf.2.2.2.2.1, hf.2.2.2.2.2,
    modifyIdx_concat, modifyLast_concat, getD_concat_length, swapSelfClose_concat]
  simp [pyJoin_singleton, hrep, h1]
  exact swapSelfClose_concat _

/-- Witness for C1 at the claim's own example: indent width 4, depth 0, a
title-kind instance called with the text of the scenario gives exactly
the three lines of the claim. -/
theorem leaf_call_auto_closes_witness :
    (Element.call (QuickHtml.element (QuickHtml.init 4) "title" []).1
        (QuickHtml.element (QuickHtml.init 4) "title" []).2 "My Webpage")._lines
      = ["<title>", "    My Webpage", "</title>"] := by
  have h := leaf_call_auto_closes (QuickHtml.init 4) "title" "My Webpage" (by decide) (by decide)
  exact h.1.trans (by decide)

/-- C2: at scope exit, more than one buffered fragment is flushed through a
synthesized `p`-kind child (created, entered, called with the fragments
joined by the `<br/>` marker, exited), never written directly; exactly one
fragment is written directly at the current indent with every embedded
`<br/>` marker expanded onto its own indented line, with no `p` wrapper;
concretely, appending two fragments inside one scope renders a nested
`<p>` block holding the fragments and the marker on separate indented
lines. -/
theorem text_promotion_law (st : QuickHtml) (eid : Nat) :
    (∀ a b rest, (st.elems.getD eid default).text = a :: b :: rest →
       Element.exit st eid =
         { (QuickHtml.getattr st "p").1 with
             elems := st.elems ++
               [⟨"p", spaces (st._indent * st._depth.toNat), true,
                 [pyJoin "<br/>" (a :: b :: rest)]⟩],
             _previous := some st.elems.length,
             _depth := st._depth - 1,
             _lines := st._lines ++
               [spaces (st._indent * st._depth.toNat) ++ "<" ++ "p" ++ ">",
                spaces (st._indent * (st._depth + 1).toNat) ++
                  pyReplace (pyJoin "<br/>" (a :: b :: rest)) "<br/>"
                    ("\n" ++ spaces (st._indent * (st._depth + 1).toNat) ++ "<br/>\n" ++
                      spaces (st._indent * (st._depth + 1).toNat)),
                spaces (st._indent * st._depth.toNat) ++ "</" ++ "p" ++ ">",
                (st.elems.getD eid default).indent ++ "</" ++
                  (st.elems.getD eid default).tag ++ ">"] }) ∧
    (∀ a, (st.elems.getD eid default).text = [a] →
       Element.exit st eid =
         { st with _depth := st._depth - 1,
                   _lines := st._lines ++
                     [spaces (st._indent * st._depth.toNat) ++
                        pyReplace a "<br/>"
                          ("\n" ++ spaces (st._indent * st._depth.toNat) ++ "<br/>\n" ++
                            spaces (st._indent * st._depth.toNat)),
                      (st.elems.getD eid default).indent ++ "</" ++
                        (st.elems.getD eid default).tag ++ ">"] }) ∧
    QuickHtml.str?
        (QuickHtml.exitDoc
          (Element.exit
            (Element.call
              (Element.call
                (Element.enter (QuickHtml.element (QuickHtml.init 2) "nav" []).1
                  (QuickHtml.element (QuickHtml.init 2) "nav" []).2)
                (QuickHtml.element (QuickHtml.init 2) "nav" []).2 "Home")
              (QuickHtml.element (QuickHtml.init 2) "nav" []).2 "Contact")
            (QuickHtml.element (QuickHtml.init 2) "nav" []).2))
      = some "<nav>\n  <p>\n    Home\n    <br/>\n    Contact\n  </p>\n</nav>" := by
  refine ⟨fun a b rest h => exit_text_multi st eid a b rest h,
    fun a h => exit_text_single st eid a h, by decide⟩

/-- C3: the closing line of an entered-and-exited instance carries exactly
the indentation prefix computed once at creation time, the same prefix
its opening line carries, no matter which builder operations (nested
children included) ran between entry and exit. -/
theorem closing_indent_matches_opening (st : QuickHtml) (tag : String)
    (kwargs : List (String × String)) (ops : List Op) :
    (∃ c, (QuickHtml.element st tag kwargs).1._lines =
        st._lines ++ [spaces (st._indent * st._depth.toNat) ++ c ++ "/>"] ∧
      (Element.enter (QuickHtml.element st tag kwargs).1
          (QuickHtml.element st tag kwargs).2)._lines =
        st._lines ++ [spaces (st._indent * st._depth.toNat) ++ c ++ ">"]) ∧
    (∃ mid,
      (Element.exit
          (run (Element.enter (QuickHtml.element st tag kwargs).1
            (QuickHtml.element st tag kwargs).2) ops)
          (QuickHtml.element st tag kwargs).2)._lines =
        (run (Element.enter (QuickHtml.element st tag kwargs).1
          (QuickHtml.element st tag kwargs).2) ops)._lines ++
          (mid ++ [spaces (st._indent * st._depth.toNat) ++ "</" ++ tag ++ ">"])) := by
  obtain ⟨hfst, hsnd⟩ := element_fst st tag kwargs
  constructor
  · refine ⟨if kwargs ≠ [] then
        "<" ++ tag ++ " " ++
          pyJoin " " (List.map (fun kv => reserved kv.1 ++ "=" ++ pyRepr kv.2) kwargs)
      else "<" ++ tag, ?_, ?_⟩
    · rw [hfst]
      show st._lines ++ [_] = st._lines ++ [_]
      rcases Decidable.em (kwargs = []) with hk | hk
      · simp [hk, String.append_assoc]
      · simp [hk, String.append_assoc]
    · show (Element.enter (QuickHtml.element st tag kwargs).1
          (QuickHtml.element st tag kwargs).2)._lines = _
      have he : (Element.enter (QuickHtml.element st tag kwargs).1
          (QuickHtml.element st tag kwargs).2)._lines =
          modifyLast swapSelfClose ((QuickHtml.element st tag kwargs).1)._lines := rfl
      rw [he, hfst]
      show modifyLast swapSelfClose (st._lines ++ [_]) = _
      rw [modifyLast_concat]
      rcases Decidable.em (kwargs = []) with hk | hk
      · simp only [hk]
        rw [if_neg (by simp)]
        rw [swapSelfClose_concat]
        simp [String.append_assoc]
      · rw [if_pos hk, if_pos hk]
        rw [swapSelfClose_concat]
        simp [String.append_assoc]
  · set stOpen := Element.enter (QuickHtml.element st tag kwargs).1
      (QuickHtml.element st tag kwargs).2 with hstOpen
    set st2 := run stOpen ops with hst2
    have heid : (QuickHtml.element st tag kwargs).2 = st.elems.length := hsnd
    have hopen_elems : stOpen.elems =
        st.elems ++ [⟨tag, spaces (st._indent * st._depth.toNat), true, []⟩] := by
      rw [hstOpen]
      show modifyIdx (fun e => { e with is_context_manager := true })
          (QuickHtml.element st tag kwargs).2 ((QuickHtml.element st tag kwargs).1).elems = _
      rw [heid, hfst]
      show modifyIdx _ st.elems.length (st.elems ++ [_]) = _
      rw [modifyIdx_concat]
    have hmeta := run_elems_meta ops stOpen
    have hlen : st.elems.length < stOpen.elems.length := by
      rw [hopen_elems]
      simp
    have hcell := hmeta.2 st.elems.length hlen
    have hcell_tag : (st2.elems.getD st.elems.length default).tag = tag := by
      rw [← hst2] at hcell
      rw [hcell.1, hopen_elems, getD_concat_length]
    have hcell_ind : (st2.elems.getD st.elems.length default).indent =
        spaces (st._indent * st._depth.toNat) := by
      rw [← hst2] at hcell
      rw [hcell.2, hopen_elems, getD_concat_length]
    obtain ⟨mid, hmid⟩ := exit_lines_ext st2 (QuickHtml.element st tag kwargs).2
    refine ⟨mid, ?_⟩
    rw [hmid, heid, hcell_tag, hcell_ind]

/-- C4: `create(attributes)` appends the placeholder line with the
attributes serialized as `key=repr(value)` pairs joined by single spaces
in insertion order, each key passed through the reserved-word remap
(`class_` to `class`, everything else unchanged) while the tag name is
emitted verbatim with no remap; with no attributes the line is the bare
self-closed tag; string values render in single-quoted repr form. -/
theorem attribute_serialization_format (st : QuickHtml) :
    (∀ tag kwargs, kwargs ≠ [] →
       (QuickHtml.element st tag kwargs).1._lines =
         st._lines ++
           [spaces (st._indent * st._depth.toNat) ++ "<" ++ tag ++ " " ++
              pyJoin " " (List.map (fun kv => reserved kv.1 ++ "=" ++ pyRepr kv.2) kwargs) ++
              "/>"]) ∧
    (∀ tag, (QuickHtml.element st tag []).1._lines =
       st._lines ++ [spaces (st._indent * st._depth.toNat) ++ "<" ++ tag ++ "/>"]) ∧
    reserved "class_" = "class" ∧
    (∀ w, w ≠ "class_" → reserved w = w) ∧
    (∀ v, pyRepr v = "'" ++ v ++ "'") ∧
    (QuickHtml.element (QuickHtml.init 2) "class_" [("class_", "x")]).1._lines =
      ["<class_ class='x'/>"] := by
  refine ⟨?_, ?_, rfl, ?_, fun v => rfl, by decide⟩
  · intro tag kwargs hk
    rw [(element_fst st tag kwargs).1]
    show st._lines ++ [_] = st._lines ++ [_]
    rw [if_pos hk]
  · intro tag
    rw [(element_fst st tag []).1]
    show st._lines ++ [_] = st._lines ++ [_]
    rw [if_neg (by simp)]
  · intro w hw
    unfold reserved
    rw [if_neg hw]

/-- C5 counterexample: create a `div`, then a `span`, then enter the `div`
(index 0).  `__enter__` rewrites the LAST buffered line, so the
never-entered `span`'s placeholder becomes an open tag while the entered
`div`'s own placeholder stays self-closed — the claimed per-instance
rewrite does not happen. -/
theorem enter_rewrites_foreign_line_cex :
    (Element.enter
        (QuickHtml.element (QuickHtml.element (QuickHtml.init 2) "div" []).1 "span" []).1
        (QuickHtml.element (QuickHtml.init 2) "div" []).2)._lines = ["<div/>", "<span>"] ∧
    (Element.enter
        (QuickHtml.element (QuickHtml.element (QuickHtml.init 2) "div" []).1 "span" []).1
        (QuickHtml.element (QuickHtml.init 2) "div" []).2)._lines ≠ ["<div>", "<span/>"] := by
  decide

/-- C5 (amended): entering an instance rewrites the most recently appended
line, whichever instance wrote it, leaving every earlier line unchanged;
when entry immediately follows the instance's creation that line is the
instance's own placeholder, whose trailing self-close is turned into an
open tag. -/
theorem enter_rewrites_most_recent_line (st : QuickHtml) :
    (∀ tag kwargs, ∃ c,
       (QuickHtml.element st tag kwargs).1._lines = st._lines ++ [c ++ "/>"] ∧
       (Element.enter (QuickHtml.element st tag kwargs).1
           (QuickHtml.element st tag kwargs).2)._lines = st._lines ++ [c ++ ">"]) ∧
    (∀ eid i d, i + 1 < st._lines.length →
       (Element.enter st eid)._lines.getD i d = st._lines.getD i d) ∧
    (∀ eid, (Element.enter st eid)._lines.length = st._lines.length) := by
  refine ⟨?_, ?_, ?_⟩
  · intro tag kwargs
    refine ⟨spaces (st._indent * st._depth.toNat) ++
      (if kwargs ≠ [] then
         "<" ++ tag ++ " " ++
           pyJoin " " (List.map (fun kv => reserved kv.1 ++ "=" ++ pyRepr kv.2) kwargs)
       else "<" ++ tag), ?_, ?_⟩
    · rw [(element_fst st tag kwargs).1]
      show st._lines ++ [_] = st._lines ++ [_]
      rcases Decidable.em (kwargs = []) with hk | hk
      · simp [hk, String.append_assoc]
      · simp [hk, String.append_assoc]
    · have he : (Element.enter (QuickHtml.element st tag kwargs).1
          (QuickHtml.element st tag kwargs).2)._lines =
          modifyLast swapSelfClose ((QuickHtml.element st tag kwargs).1)._lines := rfl
      rw [he, (element_fst st tag kwargs).1]
      show modifyLast swapSelfClose (st._lines ++ [_]) = _
      rw [modifyLast_concat]
      rcases Decidable.em (kwargs = []) with hk | hk
      · simp only [hk]
        rw [if_neg (by simp), if_neg (by simp)]
        rw [swapSelfClose_concat]
        simp [String.append_assoc]
      · rw [if_pos hk, if_pos hk]
        rw [swapSelfClose_concat]
        simp [String.append_assoc]
  · intro eid i d h
    exact getD_modifyLast_lt swapSelfClose st._lines i d h
  · intro eid
    exact length_modifyLast swapSelfClose st._lines

/-- C6 counterexample: the leaf trace of C1 (create a title-kind instance,
call it once).  The synthesized enter/exit pair has run — the closing tag
is already in the output — yet the instance's pending-text buffer still
holds the fragment: the buffer is not empty after exit. -/
theorem pending_text_not_cleared_cex :
    ((Element.call (QuickHtml.element (QuickHtml.init 4) "title" []).1
        (QuickHtml.element (QuickHtml.init 4) "title" []).2 "My Webpage").elems.getD 0
          default).text = ["My Webpage"] ∧
    (["My Webpage"] : List String) ≠ [] ∧
    (Element.call (QuickHtml.element (QuickHtml.init 4) "title" []).1
        (QuickHtml.element (QuickHtml.init 4) "title" []).2 "My Webpage")._lines
      = ["<title>", "    My Webpage", "</title>"] := by
  decide

/-- C6 (amended): at scope exit the pending text is flushed into the output
but the buffer is retained, not cleared: exit never rewrites an existing
heap cell (it can only append the synthesized `p`), so the exited
instance still holds its fragments; and a call on an instance whose
context-manager flag is already set — as it is after a never-entered
instance's synthesized enter/exit pair — only appends to the buffer and
writes nothing. -/
theorem pending_text_retained_after_exit (st : QuickHtml) (eid : Nat) :
    (∃ tail, (Element.exit st eid).elems = st.elems ++ tail) ∧
    (eid < st.elems.length →
       (Element.exit st eid).elems.getD eid default = st.elems.getD eid default) ∧
    (∀ t, eid < st.elems.length →
       (st.elems.getD eid default).is_context_manager = true →
       Element.call st eid t =
         { st with elems := modifyIdx (fun e => { e with text := e.text ++ [t] }) eid st.elems }) := by
  refine ⟨exit_elems_ext st eid, ?_, ?_⟩
  · intro hlen
    obtain ⟨tail, htail⟩ := exit_elems_ext st eid
    rw [htail, List.getD_append _ _ _ _ hlen]
  · intro t hlen hcm
    rw [call_eq st eid t]
    dsimp only
    rw [if_pos ?_]
    show ((modifyIdx (fun e => { e with text := e.text ++ [t] }) eid st.elems).getD eid
        default).is_context_manager = true
    rw [getD_modifyIdx_self _ _ _ _ hlen]
    exact hcm

/-- C7: reading the rendered document gives the not-ready error exactly as
long as no close has run in the trace (and this is the read's only error
condition: the read is total otherwise); close caches the lines joined
with line breaks, and a second close recomputes the same string, so it is
no-op-safe. -/
theorem render_ready_iff_closed :
    (∀ (n : Nat) (ops : List Op),
       QuickHtml.str? (run (QuickHtml.init n) ops) = none ↔ ∀ o ∈ ops, o ≠ Op.docExit) ∧
    (∀ st : QuickHtml, QuickHtml.str? (QuickHtml.exitDoc st) = some (pyJoin "\n" st._lines)) ∧
    (∀ st : QuickHtml, QuickHtml.exitDoc (QuickHtml.exitDoc st) = QuickHtml.exitDoc st) := by
  refine ⟨?_, fun st => rfl, fun st => rfl⟩
  intro n ops
  have h := run_html_none_iff ops (QuickHtml.init n)
  show (run (QuickHtml.init n) ops)._html = none ↔ _
  rw [h]
  simp [QuickHtml.init]

/-- C8: calling the document with text appends the text to the pending
buffer of the element `_previous` points at (the most recently created
element, as creation sets `_previous` to the new instance), regardless of
whether that element's scope already exited, mutating nothing else; it
fails with the null-reference error exactly when `_previous` is unset,
which holds exactly as long as no element was ever created in the
document's trace. -/
theorem doc_call_appends_to_last_element :
    (∀ (st : QuickHtml) (t : String), QuickHtml.callDoc st t = none ↔ st._previous = none) ∧
    (∀ (st : QuickHtml) (t : String) (pid : Nat), st._previous = some pid →
       QuickHtml.callDoc st t =
         some { st with
           elems := modifyIdx (fun e => { e with text := e.text ++ [t] }) pid st.elems }) ∧
    (∀ (st : QuickHtml) (tag : String) (kwargs : List (String × String)),
       (QuickHtml.element st tag kwargs).1._previous =
         some (QuickHtml.element st tag kwargs).2) ∧
    (∀ (n : Nat) (ops : List Op),
       (run (QuickHtml.init n) ops)._previous = none ↔ ∀ o ∈ ops, o.isCreate = false) := by
  refine ⟨?_, ?_, ?_, ?_⟩
  · intro st t
    unfold QuickHtml.callDoc
    rcases hp : st._previous with _ | pid <;> simp [hp]
  · intro st t pid h
    unfold QuickHtml.callDoc
    rw [h]
  · intro st tag kwargs
    rw [(element_fst st tag kwargs).1, (element_fst st tag kwargs).2]
  · intro n ops
    exact run_prev_none_iff ops (QuickHtml.init n) rfl rfl

/-- C9 counterexample: a builder that already holds an appended line.  The
open operation (`__enter__`) returns it unchanged: the line buffer does
not become empty, contradicting the claimed reset. -/
theorem open_does_not_reset_cex :
    (QuickHtml.enterDoc (QuickHtml.element (QuickHtml.init 2) "div" []).1)._lines
      = ["<div/>"] ∧
    (["<div/>"] : List String) ≠ [] := by
  decide

/-- C9 (amended): open() returns the builder itself, completely unchanged,
as the active scope root; the empty line buffer, zero depth, absent
pending state and absent last-element reference are established by the
constructor, not by open(). -/
theorem open_returns_builder_unchanged :
    (∀ st : QuickHtml, QuickHtml.enterDoc st = st) ∧
    (∀ n : Nat,
       (QuickHtml.init n)._lines = [] ∧ (QuickHtml.init n)._depth = 0 ∧
       (QuickHtml.init n)._previous = none ∧ (QuickHtml.init n).elems = [] ∧
       (QuickHtml.init n)._html = none ∧ (QuickHtml.init n)._indent = n) :=
  ⟨fun _ => rfl, fun _ => ⟨rfl, rfl, rfl, rfl, rfl, rfl⟩⟩

/-- C10: kinds are bound to the document that produced them: creating,
entering, exiting or text-calling an instance of a kind mutates only that
kind's document inside a world of documents, leaving every other document
untouched (as does the kind lookup itself); looking the same name up
twice on one document returns the identical cached kind, while two
different documents hand out distinct kinds. -/
theorem kinds_are_document_bound :
    (∀ (w : World) (i : Nat) (attr : String) (j : Nat), j ≠ i →
       (World.getKind w i attr).1.docs.getD j default = w.docs.getD j default) ∧
    (∀ (w : World) (k : Kind) (kwargs : List (String × String)) (j : Nat), j ≠ k.doc →
       (World.create w k kwargs).1.docs.getD j default = w.docs.getD j default) ∧
    (∀ (w : World) (r : Nat × Nat) (j : Nat), j ≠ r.1 →
       (World.enter w r).docs.getD j default = w.docs.getD j default) ∧
    (∀ (w : World) (r : Nat × Nat) (j : Nat), j ≠ r.1 →
       (World.exit w r).docs.getD j default = w.docs.getD j default) ∧
    (∀ (w : World) (r : Nat × Nat) (t : String) (j : Nat), j ≠ r.1 →
       (World.call w r t).docs.getD j default = w.docs.getD j default) ∧
    (∀ (w : World) (i : Nat) (attr : String),
       ((World.getKind w i attr).1.getKind i attr).2 = (World.getKind w i attr).2) ∧
    (∀ (w : World) (i j : Nat) (attr : String), i ≠ j →
       (World.getKind w i attr).2 ≠ ((World.getKind w i attr).1.getKind j attr).2) := by
  refine ⟨?_, ?_, ?_, ?_, ?_, ?_, ?_⟩
  · intro w i attr j hj
    exact getD_modifyIdx_ne _ i j w.docs default hj
  · intro w k kwargs j hj
    exact getD_modifyIdx_ne _ k.doc j w.docs default hj
  · intro w r j hj
    exact getD_modifyIdx_ne _ r.1 j w.docs default hj
  · intro w r j hj
    exact getD_modifyIdx_ne _ r.1 j w.docs default hj
  · intro w r t j hj
    exact getD_modifyIdx_ne _ r.1 j w.docs default hj
  · intro w i attr
    show (⟨i, (((World.getKind w i attr).1.docs.getD i default).getattr attr).2, attr⟩ : Kind) =
      ⟨i, ((w.docs.getD i default).getattr attr).2, attr⟩
    have hcls : (((World.getKind w i attr).1.docs.getD i default).getattr attr).2 =
        ((w.docs.getD i default).getattr attr).2 := by
      by_cases hi : i < w.docs.length
      · show (((modifyIdx (fun st => (QuickHtml.getattr st attr).1) i w.docs).getD i
            default).getattr attr).2 = _
        rw [getD_modifyIdx_self _ _ _ _ hi]
        exact (getattr_again (w.docs.getD i default) attr).1
      · show (((modifyIdx (fun st => (QuickHtml.getattr st attr).1) i w.docs).getD i
            default).getattr attr).2 = _
        rw [modifyIdx_ge _ _ _ (Nat.le_of_not_lt hi)]
    rw [hcls]
  · intro w i j attr hij
    show (⟨i, ((w.docs.getD i default).getattr attr).2, attr⟩ : Kind) ≠
      ⟨j, (((World.getKind w i attr).1.docs.getD j default).getattr attr).2, attr⟩
    intro hc
    exact hij (congrArg Kind.doc hc)

/-- End-to-end validation of the embedding on the first scenario of the
specification (indent width 4, reserved word `class_` to `class`): the
rendered document is bit-exact. -/
theorem spec_scenario_replay :
    QuickHtml.str?
      (QuickHtml.exitDoc
        (Element.exit
          (Element.call
            (QuickHtml.element
              (Element.enter
                (QuickHtml.element (QuickHtml.init 4) "div" [("class_", "container")]).1
                (QuickHtml.element (QuickHtml.init 4) "div" [("class_", "container")]).2)
              "a" [("href", "#")]).1
            (QuickHtml.element
              (Element.enter
                (QuickHtml.element (QuickHtml.init 4) "div" [("class_", "container")]).1
                (QuickHtml.element (QuickHtml.init 4) "div" [("class_", "container")]).2)
              "a" [("href", "#")]).2
            "Home")
          (QuickHtml.element (QuickHtml.init 4) "div" [("class_", "container")]).2))
      = some "<div class='container'>\n    <a href='#'>\n        Home\n    </a>\n</div>" := by
  decide
